import Mathlib

/-!
# Verification of the Nubimed → GHL webhook integration

Shallow embedding of the repository's payload normalisation, event filtering,
patient extraction, phone formatting and appointment-correlation logic,
together with proofs about the claims of the specification.

JavaScript values flowing through the webhook are modelled by `JsonValue`
(an explicit `undef` constructor models JavaScript `undefined`, which the
source distinguishes from `null`).  JSON numbers are modelled by their
integer part; none of the verified properties depends on fractional values.
-/

inductive JsonValue where
  | undef
  | null
  | bool (b : Bool)
  | num (n : Int)
  | str (s : String)
  | arr (elems : List JsonValue)
  | obj (fields : List (String × JsonValue))

/-- JavaScript truthiness of a value. -/
def truthy : JsonValue → Bool
  | JsonValue.undef => false
  | JsonValue.null => false
  | JsonValue.bool b => b
  | JsonValue.num n => n != 0
  | JsonValue.str s => s != ""
  | JsonValue.arr _ => true
  | JsonValue.obj _ => true

/-- Property access `v[k]`: a missing key (or access on a non-object) yields
`undefined`, as in the source where all accessed receivers are defined. -/
def getF : JsonValue → String → JsonValue
  | JsonValue.obj fields, k =>
      match fields.find? (fun p => p.1 == k) with
      | some p => p.2
      | none => JsonValue.undef
  | _, _ => JsonValue.undef

/-- JavaScript `a || b`. -/
def jsOr (a b : JsonValue) : JsonValue := if truthy a then a else b

/-- JavaScript strict equality `===` on the values the source compares.
Distinct array/object references are never strictly equal, which is how the
comparands arise in JSON-decoded payloads. -/
def jsStrictEq : JsonValue → JsonValue → Bool
  | JsonValue.undef, JsonValue.undef => true
  | JsonValue.null, JsonValue.null => true
  | JsonValue.bool a, JsonValue.bool b => a == b
  | JsonValue.num a, JsonValue.num b => a == b
  | JsonValue.str a, JsonValue.str b => a == b
  | _, _ => false

/-- Substring test after the JavaScript `String.prototype.includes`. -/
def hasSub : List Char → List Char → Bool
  | [], sub => sub.isEmpty
  | c :: t, sub => sub.isPrefixOf (c :: t) || hasSub t sub

/-- `hay.includes(needle)` on strings. -/
def strIncludes (hay needle : String) : Bool := hasSub hay.data needle.data

/-- Lowercasing after `String.prototype.toLowerCase`; all case-folded text in
the source is ASCII. -/
def jsToLower (s : String) : String := String.mk (s.data.map Char.toLower)

/-- Whitespace stripped by `String.prototype.trim`. -/
def isJsWs (c : Char) : Bool :=
  c = ' ' || c = '\t' || c = '\n' || c = '\r' || c = '\x0b' || c = '\x0c' || c = '\xa0'

/-- `s.trim()`. -/
def jsTrim (s : String) : String :=
  String.mk (((s.data.dropWhile isJsWs).reverse.dropWhile isJsWs).reverse)

/-- `parts.join(',')` on an array of strings. -/
def joinComma : List String → String
  | [] => ""
  | [x] => x
  | x :: y :: rest => x ++ "," ++ joinComma (y :: rest)

mutual
/-- JavaScript `String(v)` coercion. -/
def jsToString : JsonValue → String
  | JsonValue.undef => "undefined"
  | JsonValue.null => "null"
  | JsonValue.bool b => if b then "true" else "false"
  | JsonValue.num n => toString n
  | JsonValue.str s => s
  | JsonValue.arr xs => joinComma (jsArrElemStrings xs)
  | JsonValue.obj _ => "[object Object]"

/-- Array elements under `Array.prototype.toString`: `null` and `undefined`
render as the empty string. -/
def jsArrElemStrings : List JsonValue → List String
  | [] => []
  | JsonValue.null :: rest => "" :: jsArrElemStrings rest
  | JsonValue.undef :: rest => "" :: jsArrElemStrings rest
  | v :: rest => jsToString v :: jsArrElemStrings rest
end

/-! ## Event classifier (`src/api/utils/filter.js`)

`shouldProcessWebhook` can raise a `TypeError` (calling `toLowerCase` on a
truthy non-string event name, lines 130 and 193 of the source), so the
embedding returns `Except String Bool`; `.error` models a thrown exception
caught by the request handler. -/

/-- Field resolution `payload.data || payload` (filter.js line 4). -/
def resolveData (p : JsonValue) : JsonValue := jsOr (getF p "data") p

/-- Field resolution `data.booking || payload.appointment || payload`
(filter.js line 5). -/
def resolveBooking (p : JsonValue) : JsonValue :=
  jsOr (jsOr (getF (resolveData p) "booking") (getF p "appointment")) p

/-- Event-name resolution chain (filter.js lines 7-12). -/
def resolveEventName (p : JsonValue) : JsonValue :=
  jsOr (jsOr (jsOr (jsOr (jsOr (getF p "name") (getF (resolveBooking p) "name"))
    (getF (resolveData p) "name")) (getF p "event_type")) (getF p "event")) (getF p "action")

/-- Status resolution
`booking.status !== undefined ? booking.status : (payload.status || data.status)`
(filter.js line 51). -/
def resolveStatus (p : JsonValue) : JsonValue :=
  match getF (resolveBooking p) "status" with
  | JsonValue.undef => jsOr (getF p "status") (getF (resolveData p) "status")
  | v => v

/-- Start-time chain `booking.start_at || booking.startAt || data.start_at ||
data.startAt` (filter.js lines 64, 112). -/
def resolveStartAt (p : JsonValue) : JsonValue :=
  jsOr (jsOr (jsOr (getF (resolveBooking p) "start_at") (getF (resolveBooking p) "startAt"))
    (getF (resolveData p) "start_at")) (getF (resolveData p) "startAt")

/-- The fixed denylist of non-booking callback kinds (filter.js lines 17-31). -/
def nonBookingEvents : List String :=
  ["cita_completada", "cita_eliminada", "booking_completed", "booking_deleted",
   "nueva_factura", "new_invoice", "tratamiento_completado", "treatment_completed",
   "paciente_creado_actualizado", "patient_created_updated", "new_or_updated_patient",
   "presupuesto_creado_actualizado", "budget_created_updated"]

/-- Completion-status vocabulary test (filter.js lines 212-229). -/
def isCompletionStatus (status : JsonValue) : Bool :=
  if truthy status = false then false
  else
    let completionStatuses :=
      ["asiste", "completada", "completed", "attended", "asistida", "completed", "finalizada"]
    completionStatuses.any (fun completion => strIncludes (jsToLower (jsToString status)) completion)

/-- Numeric completion codes; the set is empty in the source
(filter.js line 234). -/
def completionCodes : List Int := []

/-- Numeric completion-code test (filter.js lines 231-237). -/
def isCompletionStatusCode : JsonValue → Bool
  | JsonValue.num n => completionCodes.contains n
  | _ => false

/-- The lowercased event name when the resolved event name is a truthy string;
`none` when the guard `eventName && typeof eventName === 'string'` fails. -/
def eventLowerOpt (p : JsonValue) : Option String :=
  match resolveEventName p with
  | JsonValue.str s => if s = "" then none else some (jsToLower s)
  | _ => none

/-- Denylist and patient-only rules (filter.js lines 14-49).  `some r` models
an early `return r`. -/
def nameBlockA (p : JsonValue) : Option Bool :=
  match eventLowerOpt p with
  | none => none
  | some el =>
    if nonBookingEvents.any (fun event => strIncludes el event) then some false
    else if strIncludes el "patient" && !strIncludes el "booking" then
      let b := resolveBooking p
      let hasBookingData := truthy b &&
        (truthy (getF b "id") || truthy (getF b "start_at") ||
         truthy (getF b "startAt") || truthy (getF b "date"))
      if !hasBookingData then some false else none
    else none

/-- Name-pattern rules (filter.js lines 53-109). -/
def nameBlockB (p : JsonValue) : Option Bool :=
  match eventLowerOpt p with
  | none => none
  | some el =>
    let status := resolveStatus p
    if strIncludes el "new_booking" then some true else
    let newOrUpdated : Option Bool :=
      if strIncludes el "new_or_updated" then
        if truthy (resolveStartAt p) then some true
        else if isCompletionStatusCode status && !truthy (resolveStartAt p) then some false
        else none
      else none
    match newOrUpdated with
    | some r => some r
    | none =>
    if strIncludes el "booking_created" || strIncludes el "created" then some true else
    let attendance : Option Bool :=
      if (strIncludes el "attended" || strIncludes el "asiste") && !strIncludes el "new" then
        if isCompletionStatus status || isCompletionStatusCode status then some false else none
      else none
    match attendance with
    | some r => some r
    | none =>
    let completedRule : Option Bool :=
      if strIncludes el "completed" && !strIncludes el "new" && !strIncludes el "booking_created" then
        if isCompletionStatus status || isCompletionStatusCode status then some false else none
      else none
    match completedRule with
    | some r => some r
    | none =>
      if strIncludes el "updated" || strIncludes el "modified" then
        let b := resolveBooking p
        let startAt := jsOr (jsOr (getF b "start_at") (getF b "startAt")) (getF b "date")
        let previousStartAt := jsOr (jsOr (jsOr (getF b "previous_start_at")
          (getF b "previousStartAt")) (getF p "previous_date"))
          (getF (resolveData p) "previous_start_at")
        if truthy previousStartAt && truthy startAt && !jsStrictEq previousStartAt startAt then
          some true
        else if isCompletionStatus status || isCompletionStatusCode status then some false
        else none
      else none

/-- Numeric status rules (filter.js lines 111-143).  Line 130 calls
`eventName.toLowerCase()` on a possibly non-string truthy value, hence the
`Except`. -/
def numericBlock (p : JsonValue) : Except String (Option Bool) :=
  match resolveStatus p with
  | JsonValue.num n =>
    let startAt := resolveStartAt p
    if n = 5 then Except.ok (some (truthy startAt))
    else if n = 4 then Except.ok (some true)
    else if isCompletionStatusCode (JsonValue.num n) then
      match resolveEventName p with
      | JsonValue.str s =>
        if s ≠ "" && strIncludes (jsToLower s) "new_booking" then Except.ok (some true)
        else if truthy startAt then Except.ok (some true)
        else Except.ok (some false)
      | e =>
        if truthy e then Except.error "TypeError"
        else if truthy startAt then Except.ok (some true)
        else Except.ok (some false)
    else Except.ok none
  | _ => Except.ok none

/-- Legacy `event_type` rules (filter.js lines 145-190). -/
def legacyBlock (p : JsonValue) : Option Bool :=
  let eventType := jsOr (jsOr (getF p "event_type") (getF p "event")) (getF p "action")
  if jsStrictEq eventType (JsonValue.str "created") ||
     jsStrictEq eventType (JsonValue.str "appointment.created") then
    some true
  else if jsStrictEq eventType (JsonValue.str "updated") ||
     jsStrictEq eventType (JsonValue.str "appointment.updated") then
    let appointment := jsOr (getF p "appointment") p
    let changes := getF p "changes"
    let changesRule : Option Bool :=
      if truthy changes then
        if truthy (getF changes "date") || truthy (getF changes "time") ||
           truthy (getF changes "datetime") then some true
        else if truthy (getF changes "status") && !truthy (getF changes "date") &&
           !truthy (getF changes "time") then
          if isCompletionStatus (jsOr (getF appointment "status") (getF p "status")) then
            some false
          else none
        else none
      else none
    match changesRule with
    | some r => some r
    | none =>
      if truthy (getF p "previous_status") || truthy (getF p "previous_date") ||
         truthy (getF appointment "previous_date") then
        let currentDate := jsOr (jsOr (getF appointment "date") (getF appointment "datetime"))
          (getF p "date")
        let previousDate := jsOr (getF appointment "previous_date") (getF p "previous_date")
        let currentStatus := jsOr (getF appointment "status") (getF p "status")
        let previousStatus := jsOr (getF p "previous_status") (getF p "previous_status")
        if truthy previousDate && truthy currentDate &&
           !jsStrictEq previousDate currentDate then some true
        else if truthy previousStatus && truthy currentStatus &&
           !jsStrictEq previousStatus currentStatus then
          if !truthy previousDate || jsStrictEq previousDate currentDate then
            if isCompletionStatus currentStatus then some false else none
          else none
        else none
      else none
    else none

/-- Default-accept and default-reject fallbacks (filter.js lines 192-209).
Line 193 calls `toLowerCase` on the resolved event name, which throws when
that value is truthy but not a string. -/
def fallbackBlock (p : JsonValue) : Except String Bool :=
  let b := resolveBooking p
  if truthy b && (truthy (getF b "start_at") || truthy (getF b "startAt") ||
     truthy (getF b "date")) then
    match resolveEventName p with
    | JsonValue.str _ => Except.ok true
    | e => if truthy e then Except.error "TypeError" else Except.ok true
  else
    let hasBookingData := truthy b && (truthy (getF b "id") || truthy (getF b "start_at") ||
      truthy (getF b "startAt") || truthy (getF b "date"))
    if !hasBookingData then Except.ok false else Except.ok true

/-- The event classifier `shouldProcessWebhook` (filter.js lines 1-210). -/
def shouldProcessWebhook (p : JsonValue) : Except String Bool :=
  match nameBlockA p with
  | some r => Except.ok r
  | none =>
  match nameBlockB p with
  | some r => Except.ok r
  | none =>
  match numericBlock p with
  | Except.error e => Except.error e
  | Except.ok (some r) => Except.ok r
  | Except.ok none =>
  match legacyBlock p with
  | some r => Except.ok r
  | none => fallbackBlock p

/-! ## A JSON parser modelling `JSON.parse`

`JSON.parse` appears in the body normalisation of both HTTP handlers and in
the legacy branch of `parseCommaSeparatedIds`.  `none` models a thrown
`SyntaxError`.  Numeric literals are validated in full but their value is
taken to be the integer part of the mantissa. -/

/-- JSON insignificant whitespace. -/
def isJsonWs (c : Char) : Bool := c = ' ' || c = '\t' || c = '\n' || c = '\r'

/-- Drop leading JSON whitespace. -/
def skipWs : List Char → List Char
  | [] => []
  | c :: rest => if isJsonWs c then skipWs rest else c :: rest

/-- Hexadecimal digit value for `\u` escapes. -/
def hexVal (c : Char) : Option Nat :=
  if '0' ≤ c ∧ c ≤ '9' then some (c.toNat - '0'.toNat)
  else if 'a' ≤ c ∧ c ≤ 'f' then some (c.toNat - 'a'.toNat + 10)
  else if 'A' ≤ c ∧ c ≤ 'F' then some (c.toNat - 'A'.toNat + 10)
  else none

/-- Parse the remainder of a JSON string literal (the opening quote already
consumed), accumulating decoded characters in reverse. -/
def parseJsonString : List Char → List Char → Option (String × List Char)
  | [], _ => none
  | c :: rest, acc =>
    if c = '"' then some (String.mk acc.reverse, rest)
    else if c = '\\' then
      match rest with
      | [] => none
      | e :: rest2 =>
        if e = '"' then parseJsonString rest2 ('"' :: acc)
        else if e = '\\' then parseJsonString rest2 ('\\' :: acc)
        else if e = '/' then parseJsonString rest2 ('/' :: acc)
        else if e = 'b' then parseJsonString rest2 ('\x08' :: acc)
        else if e = 'f' then parseJsonString rest2 ('\x0c' :: acc)
        else if e = 'n' then parseJsonString rest2 ('\n' :: acc)
        else if e = 'r' then parseJsonString rest2 ('\r' :: acc)
        else if e = 't' then parseJsonString rest2 ('\t' :: acc)
        else if e = 'u' then
          match rest2 with
          | h1 :: h2 :: h3 :: h4 :: rest3 =>
            match hexVal h1, hexVal h2, hexVal h3, hexVal h4 with
            | some a, some b, some c2, some d =>
                parseJsonString rest3 (Char.ofNat (((a * 16 + b) * 16 + c2) * 16 + d) :: acc)
            | _, _, _, _ => none
          | _ => none
        else none
    else if c.toNat < 32 then none
    else parseJsonString rest (c :: acc)

/-- Split a leading run of decimal digits. -/
def spanDigits : List Char → List Char × List Char
  | [] => ([], [])
  | c :: rest =>
    if c.isDigit then
      match spanDigits rest with
      | (ds, r) => (c :: ds, r)
    else ([], c :: rest)

/-- Numeric value of a digit run. -/
def digitsToNat : List Char → Nat → Nat
  | [], acc => acc
  | c :: rest, acc => digitsToNat rest (acc * 10 + (c.toNat - '0'.toNat))

/-- Parse a JSON number literal; the resulting value is the (signed) integer
part of the mantissa. -/
def parseJsonNumber (cs : List Char) : Option (JsonValue × List Char) :=
  let signed : Bool × List Char := match cs with | '-' :: r => (true, r) | _ => (false, cs)
  match spanDigits signed.2 with
  | ([], _) => none
  | (ds, rest) =>
    if ds.length > 1 ∧ ds.headD '0' = '0' then none
    else
      let intPart : Int := Int.ofNat (digitsToNat ds 0)
      let fracParsed : Option (List Char) :=
        match rest with
        | '.' :: r =>
          (match spanDigits r with
           | ([], _) => none
           | (_, r2) => some r2)
        | _ => some rest
      match fracParsed with
      | none => none
      | some rest2 =>
        let expParsed : Option (List Char) :=
          match rest2 with
          | e :: r =>
            if e = 'e' ∨ e = 'E' then
              let r2 := match r with
                | s :: rr => if s = '+' ∨ s = '-' then rr else s :: rr
                | [] => []
              match spanDigits r2 with
              | ([], _) => none
              | (_, r3) => some r3
            else some rest2
          | [] => some rest2
        match expParsed with
        | none => none
        | some rest3 => some (JsonValue.num (if signed.1 then -intPart else intPart), rest3)

mutual
/-- Parse one JSON value; `fuel` strictly bounds the recursion depth. -/
def parseJsonValue (fuel : Nat) (cs : List Char) : Option (JsonValue × List Char) :=
  match fuel with
  | 0 => none
  | fuel + 1 =>
    match skipWs cs with
    | [] => none
    | c :: rest =>
      if c = '[' then
        match skipWs rest with
        | ']' :: rest2 => some (JsonValue.arr [], rest2)
        | rest2 => parseJsonArrayItems fuel rest2 []
      else if c = '{' then
        match skipWs rest with
        | '}' :: rest2 => some (JsonValue.obj [], rest2)
        | rest2 => parseJsonObjectItems fuel rest2 []
      else if c = '"' then
        match parseJsonString rest [] with
        | some (s, rest2) => some (JsonValue.str s, rest2)
        | none => none
      else if c = 't' then
        if rest.take 3 = ['r', 'u', 'e'] then some (JsonValue.bool true, rest.drop 3) else none
      else if c = 'f' then
        if rest.take 4 = ['a', 'l', 's', 'e'] then some (JsonValue.bool false, rest.drop 4)
        else none
      else if c = 'n' then
        if rest.take 3 = ['u', 'l', 'l'] then some (JsonValue.null, rest.drop 3) else none
      else if c = '-' ∨ c.isDigit then parseJsonNumber (c :: rest)
      else none

/-- Parse the items of a non-empty JSON array, after `[`. -/
def parseJsonArrayItems (fuel : Nat) (cs : List Char) (acc : List JsonValue) :
    Option (JsonValue × List Char) :=
  match fuel with
  | 0 => none
  | fuel + 1 =>
    match parseJsonValue fuel cs with
    | none => none
    | some (v, rest) =>
      match skipWs rest with
      | ',' :: rest2 => parseJsonArrayItems fuel rest2 (acc ++ [v])
      | ']' :: rest2 => some (JsonValue.arr (acc ++ [v]), rest2)
      | _ => none

/-- Parse the members of a non-empty JSON object, after `{`. -/
def parseJsonObjectItems (fuel : Nat) (cs : List Char) (acc : List (String × JsonValue)) :
    Option (JsonValue × List Char) :=
  match fuel with
  | 0 => none
  | fuel + 1 =>
    match skipWs cs with
    | '"' :: rest =>
      (match parseJsonString rest [] with
       | none => none
       | some (k, rest2) =>
         match skipWs rest2 with
         | ':' :: rest3 =>
           (match parseJsonValue fuel rest3 with
            | none => none
            | some (v, rest4) =>
              match skipWs rest4 with
              | ',' :: rest5 => parseJsonObjectItems fuel rest5 (acc ++ [(k, v)])
              | '}' :: rest5 => some (JsonValue.obj (acc ++ [(k, v)]), rest5)
              | _ => none)
         | _ => none)
    | _ => none
end

/-- `JSON.parse(s)`: `none` models a thrown `SyntaxError`. -/
def jsonParse (s : String) : Option JsonValue :=
  match parseJsonValue (2 * s.data.length + 2) s.data with
  | some (v, rest) => if skipWs rest = [] then some v else none
  | none => none

/-! ## Appointment correlation table (`src/api/services/calendar-service.js`)

The correlation table lives in two custom-field values of the CRM contact:
a comma-separated list of Nubimed booking ids and a parallel list of GHL
appointment ids.  `CorrState` carries those two strings (the empty string
models an absent or empty field value, both of which the source treats
alike).  The remote fetch/PUT calls are abstracted by `fetchOk` flags and by
returning the field values a successful PUT would write; all list logic is
taken verbatim from the source. -/

/-- The two correlation custom-field values of a contact. -/
structure CorrState where
  bookingIdsStr : String
  appointmentIdsStr : String

/-- `parseCommaSeparatedIds` (calendar-service.js lines 330-344): JSON arrays
are honoured for backward compatibility, anything else is split on commas,
trimmed and cleared of empty entries. -/
def parseCommaSeparatedIds (value : JsonValue) : List JsonValue :=
  match value with
  | JsonValue.str s =>
    if s = "" then []
    else
      match jsonParse s with
      | some (JsonValue.arr xs) => xs
      | _ =>
        (((s.data.splitOn ',').map (fun part => jsTrim (String.mk part))).filter
          (fun id => id ≠ "")).map JsonValue.str
  | _ => []

/-- One step of `Array.prototype.filter(id => id && id.trim().length > 0)`
under `formatCommaSeparatedIds`: truthy non-strings have no `trim` method and
raise a `TypeError`. -/
def keepIds : List JsonValue → Except String (List String)
  | [] => Except.ok []
  | v :: rest =>
    match v with
    | JsonValue.str s =>
      (keepIds rest).map (fun tail => if s ≠ "" ∧ jsTrim s ≠ "" then s :: tail else tail)
    | _ => if truthy v then Except.error "TypeError" else keepIds rest

/-- `formatCommaSeparatedIds` (calendar-service.js lines 349-354). -/
def formatCommaSeparatedIds (ids : List JsonValue) : Except String String :=
  if ids.isEmpty then Except.ok ""
  else (keepIds ids).map joinComma

/-- `Array.prototype.indexOf` against the string `String(target)`; strict
equality means only string elements can match.  `none` models `-1`. -/
def jsFindIndex : List JsonValue → String → Option Nat
  | [], _ => none
  | v :: rest, s =>
    if jsStrictEq v (JsonValue.str s) then some 0
    else (jsFindIndex rest s).map (fun i => i + 1)

/-- `getExistingAppointmentId` (calendar-service.js lines 360-427), given the
correlation fields of the contact; `fetchOk = false` models a failed contact
fetch (any failure path returns `null`, modelled by `JsonValue.null`). -/
def getExistingAppointmentId (contactId nubimedBookingId : JsonValue) (fetchOk : Bool)
    (st : CorrState) : JsonValue :=
  if !truthy contactId || !truthy nubimedBookingId then JsonValue.null
  else if !fetchOk then JsonValue.null
  else if st.appointmentIdsStr ≠ "" ∧ st.bookingIdsStr ≠ "" then
    let appointmentIds := parseCommaSeparatedIds (JsonValue.str st.appointmentIdsStr)
    let bookingIds := parseCommaSeparatedIds (JsonValue.str st.bookingIdsStr)
    match jsFindIndex bookingIds (jsToString nubimedBookingId) with
    | some i => if i < appointmentIds.length then appointmentIds.getD i JsonValue.undef
                else JsonValue.null
    | none => JsonValue.null
  else JsonValue.null

/-- `updateContactAppointmentIds` (calendar-service.js lines 433-567) as a
state transformer: `some st'` is the pair of field values sent in the contact
PUT, `none` means no PUT was issued (guard failure, failed fetch, the
idempotent skip when the booking id is already present, or a caught
`TypeError` from `formatCommaSeparatedIds`). -/
def updateContactAppointmentIds (contactId nubimedBookingId ghlAppointmentId : JsonValue)
    (fetchOk : Bool) (st : CorrState) : Option CorrState :=
  if !truthy contactId || !truthy nubimedBookingId || !truthy ghlAppointmentId then none
  else if !fetchOk then none
  else
    let appointmentIds := parseCommaSeparatedIds (JsonValue.str st.appointmentIdsStr)
    let bookingIds := parseCommaSeparatedIds (JsonValue.str st.bookingIdsStr)
    let nubimedBookingIdStr := jsToString nubimedBookingId
    let ghlAppointmentIdStr := jsToString ghlAppointmentId
    match jsFindIndex bookingIds nubimedBookingIdStr with
    | some _ => none
    | none =>
      let bookingIds2 := bookingIds ++ [JsonValue.str nubimedBookingIdStr]
      let appointmentIds2 := appointmentIds ++ [JsonValue.str ghlAppointmentIdStr]
      match formatCommaSeparatedIds appointmentIds2, formatCommaSeparatedIds bookingIds2 with
      | Except.ok appointmentIdsStr2, Except.ok bookingIdsStr2 =>
          some ⟨bookingIdsStr2, appointmentIdsStr2⟩
      | _, _ => none

/-- `removeContactAppointmentIds` (calendar-service.js lines 572-697) as a
state transformer, with the same `Option` convention as the update. -/
def removeContactAppointmentIds (contactId nubimedBookingId ghlAppointmentId : JsonValue)
    (fetchOk : Bool) (st : CorrState) : Option CorrState :=
  if !truthy contactId || !truthy nubimedBookingId then none
  else if !fetchOk then none
  else
    let appointmentIds := parseCommaSeparatedIds (JsonValue.str st.appointmentIdsStr)
    let bookingIds := parseCommaSeparatedIds (JsonValue.str st.bookingIdsStr)
    match jsFindIndex bookingIds (jsToString nubimedBookingId) with
    | none => none
    | some indexToRemove =>
      let bookingIds2 := bookingIds.eraseIdx indexToRemove
      let appointmentIds2 :=
        if indexToRemove < appointmentIds.length then appointmentIds.eraseIdx indexToRemove
        else appointmentIds
      match formatCommaSeparatedIds appointmentIds2, formatCommaSeparatedIds bookingIds2 with
      | Except.ok appointmentIdsStr2, Except.ok bookingIdsStr2 =>
          some ⟨bookingIdsStr2, appointmentIdsStr2⟩
      | _, _ => none

/-- One correlation operation as seen by the CRM contact record: an
Appointment Sync write or a delete-path removal, with the outcomes of the
contact fetch and of the contact PUT. -/
inductive CorrOp where
  | sync (contactId nubimedBookingId ghlAppointmentId : JsonValue) (fetchOk putOk : Bool)
  | del (contactId nubimedBookingId ghlAppointmentId : JsonValue) (fetchOk putOk : Bool)

/-- The contact's field values after one operation: a PUT that was never
issued or that failed leaves the stored values unchanged. -/
def applyCorrOp (st : CorrState) : CorrOp → CorrState
  | CorrOp.sync c b a f putOk =>
    match updateContactAppointmentIds c b a f st with
    | some st2 => if putOk then st2 else st
    | none => st
  | CorrOp.del c b a f putOk =>
    match removeContactAppointmentIds c b a f st with
    | some st2 => if putOk then st2 else st
    | none => st

/-- The contact's correlation fields after a sequence of operations starting
from the empty table. -/
def runCorrOps (ops : List CorrOp) : CorrState := ops.foldl applyCorrOp ⟨"", ""⟩

/-! ## Contact service (`src/api/services/ghl-service.js`) -/

/-- Test for a leading `'+'`, after `cleaned.startsWith('+')`. -/
def startsWithPlus (s : String) : Bool :=
  match s.data with
  | [] => false
  | c :: _ => c = '+'

/-- `formatPhone` (ghl-service.js lines 8-18): drops every character that is
neither a digit nor a plus sign, then prefixes `'+'` when absent; `none`
models the `null` returns. -/
def formatPhone (phone : JsonValue) : Option String :=
  if truthy phone = false then none
  else
    let cleaned := String.mk ((jsToString phone).data.filter (fun c => c.isDigit || c = '+'))
    let cleaned2 := if cleaned ≠ "" ∧ !startsWithPlus cleaned then "+" ++ cleaned else cleaned
    if cleaned2 ≠ "" then some cleaned2 else none

/-- `formatDateForGHL` (ghl-service.js lines 20-35).  JavaScript `Date`
parsing and ISO rendering belong to the runtime, so they are abstracted by
the `jsDateIso` argument (`none` modelling an invalid date); the falsy guard
is the source's own. -/
def formatDateForGHL (jsDateIso : JsonValue → Option String) (date : JsonValue) :
    Option String :=
  if truthy date = false then none else jsDateIso date

/-- Predicate for `x && Array.isArray(x) && x.length > 0`. -/
def isNonEmptyArray : JsonValue → Bool
  | JsonValue.arr (_ :: _) => true
  | _ => false

/-- First element of an array value. -/
def firstElem : JsonValue → JsonValue
  | JsonValue.arr (x :: _) => x
  | _ => JsonValue.undef

/-- Patient-record selection of `extractPatientData`
(ghl-service.js lines 51-87): four prioritised source locations. -/
def selectPatient (p : JsonValue) : JsonValue :=
  let d := resolveData p
  let booking := resolveBooking p
  if truthy booking && isNonEmptyArray (getF booking "patients") then
    firstElem (getF booking "patients")
  else if isNonEmptyArray (getF d "patients") then firstElem (getF d "patients")
  else if truthy booking && truthy (getF booking "patient") then getF booking "patient"
  else jsOr (getF p "patient") (JsonValue.obj [])

/-- The record produced by `extractPatientData`
(ghl-service.js lines 165-171). -/
structure PatientData where
  phone : Option String
  email : JsonValue
  firstName : JsonValue
  lastName : JsonValue
  appointmentDate : Option String

/-- `extractPatientData` (ghl-service.js lines 37-172). -/
def extractPatientData (jsDateIso : JsonValue → Option String) (p : JsonValue) : PatientData :=
  let d := resolveData p
  let booking := resolveBooking p
  let patient := selectPatient p
  { phone := formatPhone (jsOr (jsOr (jsOr (jsOr (getF patient "phone")
      (getF p "patient_phone")) (getF p "phone")) (getF booking "phone")) (getF d "phone"))
    email := jsOr (jsOr (jsOr (jsOr (jsOr (getF patient "email") (getF p "patient_email"))
      (getF p "email")) (getF booking "email")) (getF d "email")) JsonValue.null
    firstName := jsOr (jsOr (jsOr (jsOr (jsOr (jsOr (getF patient "name")
      (getF patient "firstName")) (getF p "patient_name")) (getF p "firstName"))
      (getF p "name")) (getF booking "patient_name")) (JsonValue.str "")
    lastName := jsOr (jsOr (jsOr (jsOr (jsOr (jsOr (getF patient "surname")
      (getF patient "lastName")) (getF patient "last_name")) (getF p "patient_lastName"))
      (getF p "lastName")) (getF booking "patient_lastName")) (JsonValue.str "")
    appointmentDate := formatDateForGHL jsDateIso (jsOr (jsOr (jsOr (jsOr (jsOr (jsOr
      (jsOr (jsOr (getF booking "start_at") (getF booking "startAt")) (getF d "start_at"))
      (getF d "startAt")) (getF booking "date")) (getF booking "datetime")) (getF p "date"))
      (getF p "datetime")) (getF d "date")) }

/-- Modelled from the spec: the static country name → 2-letter-code lookup
table that the specification attributes to the Field Extractor ("covers
Spanish-speaking countries plus a handful of others"); no such table exists
in `src/api/services/ghl-service.js`. -/
def specCountryLookup : List (String × String) :=
  [("españa", "ES"), ("spain", "ES"), ("argentina", "AR"), ("méxico", "MX"),
   ("mexico", "MX"), ("colombia", "CO"), ("chile", "CL"), ("perú", "PE"),
   ("peru", "PE"), ("uruguay", "UY"), ("paraguay", "PY"), ("venezuela", "VE"),
   ("ecuador", "EC"), ("bolivia", "BO"), ("francia", "FR"), ("portugal", "PT"),
   ("italia", "IT"), ("alemania", "DE"), ("reino unido", "GB"),
   ("estados unidos", "US")]

/-- Modelled from the spec: country normalisation with `"ES"` as the default
for unrecognised input. -/
def specNormalizeCountry (v : JsonValue) : String :=
  match v with
  | JsonValue.str s =>
    match specCountryLookup.find? (fun e => e.1 == jsToLower s) with
    | some e => e.2
    | none => "ES"
  | _ => "ES"

/-- The `country` field of the patient record that `extractPatientData`
selects. -/
def patientCountryOf (p : JsonValue) : JsonValue := getF (selectPatient p) "country"

/-! ## Request handlers (`src/unnamed/part_000`)

The Express handlers are embedded as total functions over the request body
and a "world" recording the outcomes of the remote CRM calls; the effects
record says which remote operations the handler attempted.  `Except.error`
in a world field models a thrown error from the corresponding service
call. -/

/-- A request body as delivered by the middleware: a parsed value or a raw
buffer (the `express.raw` fallback for JSON bodies). -/
inductive ReqBody where
  | jval (v : JsonValue)
  | buffer (s : String)

/-- An HTTP response: status code and JSON body. -/
structure HttpResponse where
  status : Nat
  body : JsonValue

/-- Result of a successful `syncToGHL` (ghl-service.js lines 297-302). -/
structure SyncResult where
  contactId : JsonValue
  isNew : JsonValue

/-- Outcomes of the remote calls the main webhook handler can make. -/
structure MainWorld where
  sync : Except String SyncResult
  lookup : JsonValue
  create : Except String JsonValue

/-- Which remote operations the main handler attempted. -/
structure MainEffects where
  syncCalled : Bool
  lookupCalled : Bool
  createCalled : Bool
  corrWriteCalled : Bool

/-- No remote call attempted. -/
def noMainEffects : MainEffects := ⟨false, false, false, false⟩

/-- Form-encoded body normalisation of the main handler
(part_000 lines 45-102). -/
def normalizeFormPayload (p : JsonValue) : JsonValue :=
  let d := getF p "data"
  if truthy d then
    match d with
    | JsonValue.str s =>
      (match jsonParse s with
       | some parsedData =>
           JsonValue.obj [("name", jsOr (getF p "name") (getF parsedData "name")),
                          ("data", parsedData)]
       | none => JsonValue.obj [("name", getF p "name"), ("data", JsonValue.str s)])
    | _ => JsonValue.obj [("name", getF p "name"), ("data", d)]
  else p

/-- Body of the `400 Invalid JSON format` / `400 Invalid payload structure`
responses. -/
def errorBody (message : String) : JsonValue :=
  JsonValue.obj [("status", JsonValue.str "error"), ("message", JsonValue.str message)]

/-- Body of the catch-all 200 error response of the main handler
(part_000 lines 241-245); the `NODE_ENV`-gated detail is fixed to the
production value. -/
def webhookErrorBody : JsonValue :=
  JsonValue.obj [("status", JsonValue.str "error"),
                 ("message", JsonValue.str "Webhook received but error occurred"),
                 ("error", JsonValue.str "Internal error")]

/-- Body of the 200 ignored response (part_000 lines 159-162). -/
def ignoredBody : JsonValue :=
  JsonValue.obj [("status", JsonValue.str "ignored"),
                 ("message", JsonValue.str "Webhook received but ignored based on filtering rules")]

/-- Body of the 200 success response (part_000 lines 226-231). -/
def successBody (result : SyncResult) : JsonValue :=
  JsonValue.obj [("status", JsonValue.str "success"),
                 ("message", JsonValue.str "Webhook processed successfully"),
                 ("contactId", result.contactId), ("isNew", result.isNew)]

/-- Content-type dispatch and body decoding of the main handler
(part_000 lines 43-133); `Except.error` carries an immediate 400 response. -/
def parsePhase (contentType : String) (body : ReqBody) : Except HttpResponse JsonValue :=
  if strIncludes contentType "application/x-www-form-urlencoded" then
    match body with
    | ReqBody.jval p => Except.ok (normalizeFormPayload p)
    | ReqBody.buffer s => Except.ok (normalizeFormPayload (JsonValue.str s))
  else if strIncludes contentType "application/json" then
    match body with
    | ReqBody.buffer s =>
      (match jsonParse s with
       | some v => Except.ok v
       | none => Except.error ⟨400, errorBody "Invalid JSON format"⟩)
    | ReqBody.jval (JsonValue.str s) =>
      (match jsonParse s with
       | some v => Except.ok v
       | none => Except.error ⟨400, errorBody "Invalid JSON format"⟩)
    | ReqBody.jval v => Except.ok v
  else
    match body with
    | ReqBody.jval v => Except.ok v
    | ReqBody.buffer s => Except.ok (JsonValue.str s)

/-- The check `payload && typeof payload === 'object'` (part_000 line 142). -/
def isObjectLike : JsonValue → Bool
  | JsonValue.obj _ => true
  | JsonValue.arr _ => true
  | _ => false

/-- The calendar gate `contactId && (eventName.includes('booking') ||
eventName.includes('cita'))` (part_000 line 177), with
`eventName = payload.name || ''`.  Calling `includes` on a truthy non-string
`payload.name` raises a `TypeError`. -/
def calendarGate (p : JsonValue) (contactId : JsonValue) : Except String Bool :=
  if truthy contactId = false then Except.ok false
  else
    match jsOr (getF p "name") (JsonValue.str "") with
    | JsonValue.str s => Except.ok (strIncludes s "booking" || strIncludes s "cita")
    | _ => Except.error "TypeError"

/-- Booking-id extraction of the calendar block
`booking.id || data.booking_id || payload.booking_id`
(part_000 lines 180-182). -/
def resolveBid (p : JsonValue) : JsonValue :=
  jsOr (jsOr (getF (resolveBooking p) "id") (getF (resolveData p) "booking_id"))
    (getF p "booking_id")

/-- The main handler's processing of an accepted, object-shaped payload
(part_000 lines 150-246): filter, contact sync, gated calendar block with its
internal try/catch, and the outer catch that converts any thrown error into a
200 error envelope. -/
def processPayload (p : JsonValue) (w : MainWorld) : HttpResponse × MainEffects :=
  match shouldProcessWebhook p with
  | Except.error _ => (⟨200, webhookErrorBody⟩, noMainEffects)
  | Except.ok false => (⟨200, ignoredBody⟩, noMainEffects)
  | Except.ok true =>
    match w.sync with
    | Except.error _ => (⟨200, webhookErrorBody⟩, ⟨true, false, false, false⟩)
    | Except.ok result =>
      match calendarGate p (jsOr (getF p "contact_id") result.contactId) with
      | Except.error _ => (⟨200, webhookErrorBody⟩, ⟨true, false, false, false⟩)
      | Except.ok false => (⟨200, successBody result⟩, ⟨true, false, false, false⟩)
      | Except.ok true =>
        if truthy (resolveBid p) = false then
          (⟨200, successBody result⟩, ⟨true, false, false, false⟩)
        else
          match w.create with
          | Except.error _ => (⟨200, successBody result⟩, ⟨true, true, true, false⟩)
          | Except.ok appointmentId =>
            if truthy appointmentId then
              (⟨200, successBody result⟩, ⟨true, true, true, true⟩)
            else (⟨200, successBody result⟩, ⟨true, true, true, false⟩)

/-- `POST /webhook/nubimed` (part_000 lines 37-247). -/
def handleWebhookNubimed (contentType : String) (body : ReqBody) (w : MainWorld) :
    HttpResponse × MainEffects :=
  match parsePhase contentType body with
  | Except.error resp => (resp, noMainEffects)
  | Except.ok payload =>
    if isObjectLike payload = false then
      (⟨400, errorBody "Invalid payload structure"⟩, noMainEffects)
    else processPayload payload w

/-- World of the deletion handler: the contact's correlation fields, the
fetch outcome, and the outcome of the remote calendar delete. -/
structure DelWorld where
  fetchOk : Bool
  contact : CorrState
  deleteResult : Except String Unit

/-- Which remote operations the deletion handler attempted. -/
structure DelEffects where
  deleteCalled : Bool
  removeCalled : Bool

/-- No remote deletion operations attempted. -/
def noDelEffects : DelEffects := ⟨false, false⟩

/-- Form-encoded normalisation of the deletion handler
(part_000 lines 258-280). -/
def normalizeDeletedForm (p : JsonValue) : JsonValue :=
  let nm := jsOr (getF p "name") (JsonValue.str "cita_eliminada")
  let cid := getF p "contact_id"
  match getF p "data" with
  | JsonValue.str s =>
    if s ≠ "" then
      match jsonParse s with
      | some v => JsonValue.obj [("name", nm), ("data", v), ("contact_id", cid)]
      | none => JsonValue.obj [("name", nm), ("data", JsonValue.str s), ("contact_id", cid)]
    else JsonValue.obj [("name", nm), ("data", JsonValue.str s), ("contact_id", cid)]
  | d => JsonValue.obj [("name", nm), ("data", d), ("contact_id", cid)]

/-- Booking-id extraction of the deletion handler
`data.deleted_booking_id || data.booking_id || payload.booking_id ||
payload.deleted_booking_id` (part_000 lines 299-303). -/
def resolveDeletedBid (p : JsonValue) : JsonValue :=
  jsOr (jsOr (jsOr (getF (resolveData p) "deleted_booking_id")
    (getF (resolveData p) "booking_id")) (getF p "booking_id"))
    (getF p "deleted_booking_id")

/-- Body of the 200 ignored response of the deletion handler
(part_000 lines 363-366). -/
def deletedIgnoredBody : JsonValue :=
  JsonValue.obj [("status", JsonValue.str "ignored"),
                 ("message", JsonValue.str "Appointment not found in GHL calendar")]

/-- Body of the 200 success response of the deletion handler
(part_000 lines 352-356). -/
def deletedSuccessBody (appointmentId : JsonValue) : JsonValue :=
  JsonValue.obj [("status", JsonValue.str "success"),
                 ("message", JsonValue.str "Appointment deleted successfully"),
                 ("appointmentId", appointmentId)]

/-- Body of the catch-all 200 error response of the deletion handler
(part_000 lines 377-381). -/
def deletedErrorBody : JsonValue :=
  JsonValue.obj [("status", JsonValue.str "error"),
                 ("message", JsonValue.str "Error processing deleted appointment"),
                 ("error", JsonValue.str "Internal error")]

/-- `POST /webhook/nubimed/deleted` (part_000 lines 250-383). -/
def handleDeletedWebhook (contentType : String) (body : JsonValue) (w : DelWorld) :
    HttpResponse × DelEffects :=
  let payload :=
    if strIncludes contentType "application/x-www-form-urlencoded" then
      normalizeDeletedForm body
    else body
  if isObjectLike payload = false then
    (⟨400, errorBody "Invalid payload structure"⟩, noDelEffects)
  else
    let contactId := getF payload "contact_id"
    let nubimedBookingId := resolveDeletedBid payload
    if truthy contactId = false then
      (⟨400, errorBody "Contact ID is required"⟩, noDelEffects)
    else if truthy nubimedBookingId = false then
      (⟨400, errorBody "Booking ID is required"⟩, noDelEffects)
    else
      let existing := getExistingAppointmentId contactId nubimedBookingId w.fetchOk w.contact
      if truthy existing then
        match w.deleteResult with
        | Except.error _ => (⟨200, deletedErrorBody⟩, ⟨true, false⟩)
        | Except.ok _ => (⟨200, deletedSuccessBody existing⟩, ⟨true, true⟩)
      else (⟨200, deletedIgnoredBody⟩, noDelEffects)

/-! ## Shared lemmas -/

theorem string_data_append (a b : String) : (a ++ b).data = a.data ++ b.data := rfl

theorem string_mk_data (s : String) : String.mk s.data = s := rfl

theorem string_eq_empty_iff (s : String) : s = "" ↔ s.data = [] := by
  constructor
  · intro h; subst h; rfl
  · intro h; cases s; cases h; rfl

/-! ## Claim C3 -/

/-- C3: for every payload whose resolved event name is a string that
case-insensitively contains a token of the fixed denylist,
`shouldProcessWebhook` returns `false`, regardless of all other payload
fields. -/
theorem claim_C3_denylist (p : JsonValue) (s : String)
    (hname : resolveEventName p = JsonValue.str s)
    (hdeny : nonBookingEvents.any (fun event => strIncludes (jsToLower s) event) = true) :
    shouldProcessWebhook p = Except.ok false := by
  have hs : s ≠ "" := by
    intro h
    subst h
    exact absurd hdeny (by decide)
  have hopt : eventLowerOpt p = some (jsToLower s) := by
    unfold eventLowerOpt
    rw [hname]
    simp [hs]
  have hA : nameBlockA p = some false := by
    unfold nameBlockA
    rw [hopt]
    simp [hdeny]
  unfold shouldProcessWebhook
  rw [hA]

/-- Witness for C3 at the payload `{name: "cita_eliminada"}`. -/
theorem claim_C3_denylist_witness :
    resolveEventName (JsonValue.obj [("name", JsonValue.str "cita_eliminada")]) =
        JsonValue.str "cita_eliminada" ∧
    nonBookingEvents.any
        (fun event => strIncludes (jsToLower "cita_eliminada") event) = true ∧
    shouldProcessWebhook (JsonValue.obj [("name", JsonValue.str "cita_eliminada")]) =
        Except.ok false :=
  ⟨rfl, by decide, claim_C3_denylist _ "cita_eliminada" rfl (by decide)⟩

/-! ## Claim C4 -/

/-- C4 counterexample: the payload
`{name: "new_booking", data: {booking: {status: 5}}}` has resolved status `5`
and no start time, yet `shouldProcessWebhook` returns `true` (the
`new_booking` name rule fires before the numeric-status rule), contradicting
the claim that status-5 payloads without a start time are always rejected. -/
theorem claim_C4_counterexample :
    resolveStatus (JsonValue.obj [("name", JsonValue.str "new_booking"),
        ("data", JsonValue.obj [("booking", JsonValue.obj [("status", JsonValue.num 5)])])]) =
      JsonValue.num 5 ∧
    truthy (resolveStartAt (JsonValue.obj [("name", JsonValue.str "new_booking"),
        ("data", JsonValue.obj [("booking", JsonValue.obj [("status", JsonValue.num 5)])])])) =
      false ∧
    shouldProcessWebhook (JsonValue.obj [("name", JsonValue.str "new_booking"),
        ("data", JsonValue.obj [("booking", JsonValue.obj [("status", JsonValue.num 5)])])]) =
      Except.ok true :=
  ⟨rfl, rfl, rfl⟩

/-- C4 (amended): whenever no event-name rule can fire — in particular when
the resolved event name is not a non-empty string — a payload with resolved
numeric status `5` is accepted exactly when a start time
(`start_at`/`startAt` at booking or data level) is present. -/
theorem claim_C4_status5 (p : JsonValue)
    (hname : eventLowerOpt p = none)
    (hstatus : resolveStatus p = JsonValue.num 5) :
    shouldProcessWebhook p = Except.ok (truthy (resolveStartAt p)) := by
  have hA : nameBlockA p = none := by
    unfold nameBlockA
    rw [hname]
  have hB : nameBlockB p = none := by
    unfold nameBlockB
    rw [hname]
  have hN : numericBlock p = Except.ok (some (truthy (resolveStartAt p))) := by
    unfold numericBlock
    rw [hstatus]
    simp
  unfold shouldProcessWebhook
  rw [hA, hB, hN]

/-- Witness for C4 at the payload `{booking: {status: 5, start_at: ...}}`. -/
theorem claim_C4_status5_witness :
    eventLowerOpt (JsonValue.obj [("booking", JsonValue.obj [("status", JsonValue.num 5),
        ("start_at", JsonValue.str "2025-01-10T09:00:00Z")])]) = none ∧
    resolveStatus (JsonValue.obj [("booking", JsonValue.obj [("status", JsonValue.num 5),
        ("start_at", JsonValue.str "2025-01-10T09:00:00Z")])]) = JsonValue.num 5 ∧
    shouldProcessWebhook (JsonValue.obj [("booking", JsonValue.obj [("status", JsonValue.num 5),
        ("start_at", JsonValue.str "2025-01-10T09:00:00Z")])]) =
      Except.ok (truthy (resolveStartAt (JsonValue.obj [("booking",
        JsonValue.obj [("status", JsonValue.num 5),
          ("start_at", JsonValue.str "2025-01-10T09:00:00Z")])]))) :=
  ⟨rfl, rfl, claim_C4_status5 _ rfl rfl⟩

/-! ## Claim C8 -/

/-- C8 counterexample: `formatPhone` keeps every `'+'`, not only a leading
one: on input `"6+00"` it returns `"+6+00"`, whose tail is not all digits,
contradicting the claim that the result contains only digits after the
leading `'+'`. -/
theorem claim_C8_counterexample :
    formatPhone (JsonValue.str "6+00") = some "+6+00" ∧
    ("+6+00".data.tail.all Char.isDigit) = false :=
  ⟨rfl, by decide⟩

/-- C8 (amended): `formatPhone` strips every character except digits and
`'+'` signs (wherever they occur) and prefixes `'+'` when absent, so any
non-null result starts with `'+'` and contains only digits and `'+'` signs
after it. -/
theorem claim_C8_format_phone (v : JsonValue) (s : String)
    (h : formatPhone v = some s) :
    s.data.headD ' ' = '+' ∧ ∀ c ∈ s.data.tail, c.isDigit = true ∨ c = '+' := by
  unfold formatPhone at h
  split at h
  · exact absurd h (by simp)
  · simp only [] at h
    revert h
    generalize hcl : String.mk ((jsToString v).data.filter (fun c => c.isDigit || c = '+')) =
      cleaned
    intro h
    have hmem : ∀ c ∈ cleaned.data, c.isDigit = true ∨ c = '+' := by
      intro c hc
      rw [← hcl] at hc
      have hp := List.of_mem_filter hc
      simpa using hp
    by_cases hemp : cleaned = ""
    · subst hemp
      simp at h
    · by_cases hsw : startsWithPlus cleaned
      · have hnotcond : ¬(cleaned ≠ "" ∧ (!startsWithPlus cleaned) = true) := by
          intro hc
          rw [hsw] at hc
          exact absurd hc.2 (by simp)
        rw [if_neg hnotcond, if_pos hemp] at h
        have hs : cleaned = s := Option.some.inj h
        subst hs
        unfold startsWithPlus at hsw
        refine ⟨?_, fun c hc => hmem c (List.mem_of_mem_tail hc)⟩
        cases hd : cleaned.data with
        | nil => rw [hd] at hsw; simp at hsw
        | cons c rest =>
          rw [hd] at hsw
          simp only [decide_eq_true_eq] at hsw
          simp [hd, hsw]
      · have hcond : cleaned ≠ "" ∧ (!startsWithPlus cleaned) = true := by
          exact ⟨hemp, by simp [hsw]⟩
        rw [if_pos hcond] at h
        have hdata : ("+" ++ cleaned).data = '+' :: cleaned.data := by
          rw [string_data_append]; rfl
        have hne : ("+" ++ cleaned) ≠ "" := by
          intro hq
          have h2 : ("+" ++ cleaned).data = [] := by rw [hq]
          rw [hdata] at h2
          simp at h2
        rw [if_pos hne] at h
        have hs : ("+" ++ cleaned) = s := Option.some.inj h
        subst hs
        rw [hdata]
        exact ⟨rfl, fun c hc => hmem c (by simpa using hc)⟩

/-- Witness for C8 at the phone string `"600 111 222"`. -/
theorem claim_C8_format_phone_witness :
    formatPhone (JsonValue.str "600 111 222") = some "+600111222" ∧
    ("+600111222".data.headD ' ' = '+' ∧
      ∀ c ∈ "+600111222".data.tail, c.isDigit = true ∨ c = '+') :=
  ⟨rfl, claim_C8_format_phone (JsonValue.str "600 111 222") "+600111222" rfl⟩

/-! ## Claim C9 -/

/-- Payload family probing the patient's `country` field: a booking with one
patient whose `country` value is the argument. -/
def countryProbePayload (country : JsonValue) : JsonValue :=
  JsonValue.obj [("data", JsonValue.obj [("booking", JsonValue.obj
    [("patients", JsonValue.arr [JsonValue.obj
      [("name", JsonValue.str "Ana"), ("surname", JsonValue.str "Ruiz"),
       ("phone", JsonValue.str "600111222"), ("country", country)]])])])]

/-- C9 counterexample: no function of the extractor's output realises the
claimed country normalisation, because `extractPatientData` produces
identical records for patients whose countries normalise differently
("España" → "ES" versus "Argentina" → "AR"): the extractor produces no
country at all. -/
theorem claim_C9_counterexample :
    ¬ ∃ f : PatientData → String, ∀ p : JsonValue,
        f (extractPatientData (fun _ => none) p) =
          specNormalizeCountry (patientCountryOf p) := by
  rintro ⟨f, hf⟩
  have hA := hf (countryProbePayload (JsonValue.str "España"))
  have hB := hf (countryProbePayload (JsonValue.str "Argentina"))
  have h1 : specNormalizeCountry
      (patientCountryOf (countryProbePayload (JsonValue.str "España"))) = "ES" := by decide
  have h2 : specNormalizeCountry
      (patientCountryOf (countryProbePayload (JsonValue.str "Argentina"))) = "AR" := by decide
  rw [h1] at hA
  rw [h2] at hB
  have hEq : extractPatientData (fun _ => none) (countryProbePayload (JsonValue.str "España")) =
      extractPatientData (fun _ => none) (countryProbePayload (JsonValue.str "Argentina")) := rfl
  rw [hEq] at hA
  exact absurd (hA.symm.trans hB) (by decide)

/-- C9 (amended): the Field Extractor produces no country: the record
returned by `extractPatientData` consists only of phone, email, first name,
last name and appointment date, and is unchanged under any change of the
patient's `country` value. -/
theorem claim_C9_no_country (jsDateIso : JsonValue → Option String) (country : JsonValue) :
    extractPatientData jsDateIso (countryProbePayload country) =
      extractPatientData jsDateIso (countryProbePayload JsonValue.undef) := rfl

/-! ## Claim C2 -/

/-- C2: when the contact's correlation table already contains the source
booking id, `updateContactAppointmentIds` issues no contact rewrite and the
stored field values — hence both parallel id lists — are unchanged, whatever
CRM appointment id is supplied. -/
theorem claim_C2_idempotent (contactId nubimedBookingId ghlAppointmentId : JsonValue)
    (fetchOk : Bool) (st : CorrState)
    (h : jsFindIndex (parseCommaSeparatedIds (JsonValue.str st.bookingIdsStr))
        (jsToString nubimedBookingId) ≠ none) :
    updateContactAppointmentIds contactId nubimedBookingId ghlAppointmentId fetchOk st = none ∧
    ∀ putOk, applyCorrOp st
        (CorrOp.sync contactId nubimedBookingId ghlAppointmentId fetchOk putOk) = st := by
  have hu : updateContactAppointmentIds contactId nubimedBookingId ghlAppointmentId fetchOk st
      = none := by
    unfold updateContactAppointmentIds
    split
    · rfl
    · split
      · rfl
      · simp only []
        cases hidx : jsFindIndex (parseCommaSeparatedIds (JsonValue.str st.bookingIdsStr))
            (jsToString nubimedBookingId) with
        | none => exact absurd hidx h
        | some i => rfl
  refine ⟨hu, fun putOk => ?_⟩
  simp only [applyCorrOp]
  rw [hu]

/-- Witness for C2: re-syncing booking `B1` (with a different appointment id
`A2`) against the table `("B1", "A1")` issues no rewrite and keeps the
state. -/
theorem claim_C2_idempotent_witness :
    jsFindIndex (parseCommaSeparatedIds (JsonValue.str (CorrState.bookingIdsStr ⟨"B1", "A1"⟩)))
        (jsToString (JsonValue.str "B1")) ≠ none ∧
    updateContactAppointmentIds (JsonValue.str "C") (JsonValue.str "B1") (JsonValue.str "A2")
        true ⟨"B1", "A1"⟩ = none ∧
    applyCorrOp ⟨"B1", "A1"⟩ (CorrOp.sync (JsonValue.str "C") (JsonValue.str "B1")
        (JsonValue.str "A2") true true) = ⟨"B1", "A1"⟩ :=
  have h : jsFindIndex (parseCommaSeparatedIds
      (JsonValue.str (CorrState.bookingIdsStr ⟨"B1", "A1"⟩)))
      (jsToString (JsonValue.str "B1")) ≠ none := by decide
  ⟨h, (claim_C2_idempotent (JsonValue.str "C") (JsonValue.str "B1") (JsonValue.str "A2")
      true ⟨"B1", "A1"⟩ h).1,
    (claim_C2_idempotent (JsonValue.str "C") (JsonValue.str "B1") (JsonValue.str "A2")
      true ⟨"B1", "A1"⟩ h).2 true⟩

/-! ## Claim C5 -/

/-- C5: for a form-encoded body whose `data` field is a string, normalization
yields — when the string parses as JSON — the envelope
`{name: topLevelName || parsed.name, data: parsed}` (so the name defaults to
the parsed object's own `name` when absent at top level), and — when it does
not parse — keeps the raw string as the `data` of the envelope without
raising an error; the form-encoded route of the main handler applies exactly
this normalization. -/
theorem claim_C5_form_normalization (p : JsonValue) (s : String)
    (h : getF p "data" = JsonValue.str s) :
    (∀ v, jsonParse s = some v →
      normalizeFormPayload p =
        JsonValue.obj [("name", jsOr (getF p "name") (getF v "name")), ("data", v)]) ∧
    (jsonParse s = none → getF (normalizeFormPayload p) "data" = JsonValue.str s) ∧
    parsePhase "application/x-www-form-urlencoded" (ReqBody.jval p) =
      Except.ok (normalizeFormPayload p) := by
  refine ⟨?_, ?_, ?_⟩
  · intro v hv
    have hs : s ≠ "" := by
      intro hz
      subst hz
      exact absurd hv (by simp [jsonParse, parseJsonValue, skipWs])
    unfold normalizeFormPayload
    rw [h]
    have ht : truthy (JsonValue.str s) = true := by simp [truthy, hs]
    rw [if_pos ht]
    dsimp only
    rw [hv]
  · intro hv
    unfold normalizeFormPayload
    rw [h]
    by_cases hs : s = ""
    · subst hs
      simp only [truthy]
      rw [if_neg (by simp)]
      exact h
    · rw [if_pos (by simp [truthy, hs])]
      dsimp only
      rw [hv]
      rfl
  · unfold parsePhase
    rw [if_pos (by decide)]

/-- Witness for C5: the form body `{name: "nb", data: "\x7b\"name\":\"inner\"\x7d"}`
normalizes to the parsed envelope. -/
theorem claim_C5_form_normalization_witness :
    normalizeFormPayload (JsonValue.obj [("name", JsonValue.str "nb"),
        ("data", JsonValue.str "\x7b\"name\":\"inner\"\x7d")]) =
      JsonValue.obj [("name",
        jsOr (getF (JsonValue.obj [("name", JsonValue.str "nb"),
          ("data", JsonValue.str "\x7b\"name\":\"inner\"\x7d")]) "name")
          (getF (JsonValue.obj [("name", JsonValue.str "inner")]) "name")),
        ("data", JsonValue.obj [("name", JsonValue.str "inner")])] :=
  (claim_C5_form_normalization (JsonValue.obj [("name", JsonValue.str "nb"),
      ("data", JsonValue.str "\x7b\"name\":\"inner\"\x7d")]) "\x7b\"name\":\"inner\"\x7d" rfl).1
    (JsonValue.obj [("name", JsonValue.str "inner")]) rfl

/-! ## Claim C6 -/

/-- C6: a deletion request carrying a contact id and a booking id that has no
entry in the contact's correlation table is answered `200 ignored`, with no
remote calendar delete and no correlation rewrite. -/
theorem claim_C6_delete_ignored (contentType : String) (body : JsonValue) (w : DelWorld)
    (hform : strIncludes contentType "application/x-www-form-urlencoded" = false)
    (hobj : isObjectLike body = true)
    (hcid : truthy (getF body "contact_id") = true)
    (hbid : truthy (resolveDeletedBid body) = true)
    (hmiss : jsFindIndex (parseCommaSeparatedIds (JsonValue.str w.contact.bookingIdsStr))
        (jsToString (resolveDeletedBid body)) = none) :
    handleDeletedWebhook contentType body w = (⟨200, deletedIgnoredBody⟩, noDelEffects) := by
  have hexist : truthy (getExistingAppointmentId (getF body "contact_id")
      (resolveDeletedBid body) w.fetchOk w.contact) = false := by
    unfold getExistingAppointmentId
    rw [if_neg (by simp [hcid, hbid])]
    by_cases hf : w.fetchOk
    · rw [if_neg (by simp [hf])]
      split
      · simp only []
        rw [hmiss]
        rfl
      · rfl
    · rw [if_pos (by simp [hf])]
      rfl
  unfold handleDeletedWebhook
  simp [hform, hobj, hcid, hbid, hexist]

/-- Witness for C6: deleting booking `B9` against a contact correlated only
for `B1` and `B2` is ignored with no remote calls. -/
theorem claim_C6_delete_ignored_witness :
    handleDeletedWebhook "application/json"
        (JsonValue.obj [("contact_id", JsonValue.str "C1"),
          ("booking_id", JsonValue.str "B9")])
        ⟨true, ⟨"B1,B2", "A1,A2"⟩, Except.ok ()⟩ =
      (⟨200, deletedIgnoredBody⟩, noDelEffects) :=
  claim_C6_delete_ignored "application/json"
    (JsonValue.obj [("contact_id", JsonValue.str "C1"), ("booking_id", JsonValue.str "B9")])
    ⟨true, ⟨"B1,B2", "A1,A2"⟩, Except.ok ()⟩ rfl rfl rfl rfl rfl

/-! ## Claim C7 -/

/-- Every branch of the post-parse processing of the main handler answers
with HTTP status 200. -/
theorem processPayload_status_200 (p : JsonValue) (w : MainWorld) :
    (processPayload p w).1.status = 200 := by
  unfold processPayload
  split
  · rfl
  · rfl
  · split
    · rfl
    · split
      · rfl
      · rfl
      · split
        · rfl
        · split
          · rfl
          · split
            · rfl
            · rfl

/-- C7: a webhook body that parses to a non-null object is always answered
with HTTP 200, and once contact sync has succeeded the handler returns the
200 success envelope carrying the synced contact — whatever the appointment
sync does, including throwing — provided the calendar gate itself evaluates
without throwing. -/
theorem claim_C7_always_200 (contentType : String) (body : ReqBody) (w : MainWorld)
    (p : JsonValue)
    (hp : parsePhase contentType body = Except.ok p)
    (hobj : isObjectLike p = true) :
    (handleWebhookNubimed contentType body w).1.status = 200 ∧
    (∀ result, shouldProcessWebhook p = Except.ok true → w.sync = Except.ok result →
      (∃ b, calendarGate p (jsOr (getF p "contact_id") result.contactId) = Except.ok b) →
      (handleWebhookNubimed contentType body w).1 = ⟨200, successBody result⟩) := by
  have hh : handleWebhookNubimed contentType body w = processPayload p w := by
    unfold handleWebhookNubimed
    rw [hp]
    simp [hobj]
  constructor
  · rw [hh]
    exact processPayload_status_200 p w
  · rintro result hfil hsync ⟨b, hb⟩
    rw [hh]
    unfold processPayload
    simp only [hfil, hsync, hb]
    cases b
    · rfl
    · repeat' split
      all_goals try rfl
      all_goals (rename_i heq; exact Except.noConfusion heq)

/-- Witness for C7: an accepted `created` payload with successful contact
sync and a failing appointment create still yields the 200 success
envelope. -/
theorem claim_C7_always_200_witness :
    (handleWebhookNubimed "application/json" (ReqBody.buffer "\x7b\"name\":\"created\"\x7d")
        ⟨Except.ok ⟨JsonValue.str "C1", JsonValue.bool true⟩, JsonValue.null,
          Except.error "boom"⟩).1.status = 200 ∧
    (handleWebhookNubimed "application/json" (ReqBody.buffer "\x7b\"name\":\"created\"\x7d")
        ⟨Except.ok ⟨JsonValue.str "C1", JsonValue.bool true⟩, JsonValue.null,
          Except.error "boom"⟩).1 =
      ⟨200, successBody ⟨JsonValue.str "C1", JsonValue.bool true⟩⟩ :=
  have hmain := claim_C7_always_200 "application/json"
    (ReqBody.buffer "\x7b\"name\":\"created\"\x7d")
    ⟨Except.ok ⟨JsonValue.str "C1", JsonValue.bool true⟩, JsonValue.null, Except.error "boom"⟩
    (JsonValue.obj [("name", JsonValue.str "created")]) rfl rfl
  ⟨hmain.1, hmain.2 ⟨JsonValue.str "C1", JsonValue.bool true⟩ rfl rfl ⟨false, rfl⟩⟩

/-! ## Claim C10 -/

/-- C10: for every accepted payload the contact sync is attempted, and any
calendar activity (correlation lookup, appointment create/update, or
correlation write) happens only when contact sync succeeded, the calendar
gate is open — the top-level `payload.name` is a string containing
`"booking"` or `"cita"` and a contact id resolved — and a booking id is
extractable; otherwise the request makes no calendar call and no correlation
write. -/
theorem claim_C10_calendar_gate (contentType : String) (body : ReqBody) (w : MainWorld)
    (p : JsonValue)
    (hp : parsePhase contentType body = Except.ok p)
    (hobj : isObjectLike p = true)
    (hfil : shouldProcessWebhook p = Except.ok true) :
    (handleWebhookNubimed contentType body w).2.syncCalled = true ∧
    (((handleWebhookNubimed contentType body w).2.lookupCalled ||
      (handleWebhookNubimed contentType body w).2.createCalled ||
      (handleWebhookNubimed contentType body w).2.corrWriteCalled) = true →
      ∃ result, w.sync = Except.ok result ∧
        calendarGate p (jsOr (getF p "contact_id") result.contactId) = Except.ok true ∧
        truthy (resolveBid p) = true) := by
  have hh : handleWebhookNubimed contentType body w = processPayload p w := by
    unfold handleWebhookNubimed
    rw [hp]
    simp [hobj]
  rw [hh]
  unfold processPayload
  simp only [hfil]
  cases hsync : w.sync with
  | error e =>
    dsimp only
    exact ⟨rfl, fun hq => absurd hq (by decide)⟩
  | ok result =>
    dsimp only
    cases hgate : calendarGate p (jsOr (getF p "contact_id") result.contactId) with
    | error e =>
      dsimp only
      exact ⟨rfl, fun hq => absurd hq (by decide)⟩
    | ok bb =>
      cases bb with
      | false =>
        dsimp only
        exact ⟨rfl, fun hq => absurd hq (by decide)⟩
      | true =>
        dsimp only
        by_cases hbid : truthy (resolveBid p) = false
        · rw [if_pos hbid]
          exact ⟨rfl, fun hq => absurd hq (by simp)⟩
        · rw [if_neg hbid]
          have hbid2 : truthy (resolveBid p) = true := by
            cases htv : truthy (resolveBid p)
            · exact absurd htv hbid
            · rfl
          cases w.create with
          | error e => exact ⟨rfl, fun _ => ⟨result, rfl, hgate, hbid2⟩⟩
          | ok appointmentId =>
            dsimp only
            by_cases happ : truthy appointmentId = true
            · rw [if_pos happ]
              exact ⟨rfl, fun _ => ⟨result, rfl, hgate, hbid2⟩⟩
            · rw [if_neg happ]
              exact ⟨rfl, fun _ => ⟨result, rfl, hgate, hbid2⟩⟩

/-- Witness for C10: an accepted `created` payload (name without `booking`
or `cita`) runs contact sync and the gate stays closed. -/
theorem claim_C10_calendar_gate_witness :
    (handleWebhookNubimed "application/json"
        (ReqBody.jval (JsonValue.obj [("name", JsonValue.str "created")]))
        ⟨Except.ok ⟨JsonValue.str "C1", JsonValue.bool false⟩, JsonValue.null,
          Except.error "x"⟩).2.syncCalled = true :=
  (claim_C10_calendar_gate "application/json"
    (ReqBody.jval (JsonValue.obj [("name", JsonValue.str "created")]))
    ⟨Except.ok ⟨JsonValue.str "C1", JsonValue.bool false⟩, JsonValue.null, Except.error "x"⟩
    (JsonValue.obj [("name", JsonValue.str "created")]) rfl rfl rfl).1

/-! ## Claim C1

The equal-length invariant fails for arbitrary id strings (a booking id
containing a comma is split on re-parse), so the claim is settled as: a
counterexample from the empty table, and the invariant proved for ids in the
plain comma-separated regime the wire format is designed for. -/

/-- A plain id: non-empty, fixed under `trim`, comma-free, and not starting
with whitespace or `'['` (so a stored join of plain ids is never mistaken
for a legacy JSON array). -/
def plainId (s : String) : Bool :=
  !s.data.isEmpty && (jsTrim s == s) && s.data.all (fun c => c != ',') &&
    !isJsonWs (s.data.headD ' ') && (s.data.headD ' ' != '[')

/-- Plain-id requirement on the ids carried by one correlation operation. -/
def corrOpPlain : CorrOp → Bool
  | CorrOp.sync _ b a _ _ => plainId (jsToString b) && plainId (jsToString a)
  | CorrOp.del _ b _ _ _ => plainId (jsToString b)

/-- Well-formed correlation state: both fields are joins of equally many
plain ids. -/
def wfCorrState (st : CorrState) : Prop :=
  ∃ lb la : List String, lb.length = la.length ∧ (∀ x ∈ lb, plainId x = true) ∧
    (∀ x ∈ la, plainId x = true) ∧
    st.bookingIdsStr = joinComma lb ∧ st.appointmentIdsStr = joinComma la


/-! ### Round-trip lemmas for the comma-separated wire format -/

theorem plainId_components (s : String) (h : plainId s = true) :
    s.data ≠ [] ∧ jsTrim s = s ∧ (∀ c ∈ s.data, c ≠ ',') ∧
      isJsonWs (s.data.headD ' ') = false ∧ s.data.headD ' ' ≠ '[' := by
  unfold plainId at h
  simp only [Bool.and_eq_true, List.all_eq_true, Bool.not_eq_true', beq_iff_eq,
    bne_iff_ne] at h
  obtain ⟨⟨⟨⟨h1, h2⟩, h3⟩, h4⟩, h5⟩ := h
  refine ⟨?_, h2, fun c hc => h3 c hc, h4, h5⟩
  simp at h1
  exact h1

theorem joinComma_data (l : List String) :
    (joinComma l).data = [','].intercalate (l.map String.data) := by
  match l with
  | [] => rfl
  | [x] => simp [joinComma, List.intercalate]
  | x :: y :: rest =>
    have ih := joinComma_data (y :: rest)
    simp only [joinComma]
    rw [string_data_append, string_data_append, ih]
    simp [List.intercalate]

theorem splitOn_joinComma (l : List String) (hne : l ≠ [])
    (h : ∀ x ∈ l, ∀ c ∈ x.data, c ≠ ',') :
    (joinComma l).data.splitOn ',' = l.map String.data := by
  rw [joinComma_data]
  refine List.splitOn_intercalate (l.map String.data) ',' ?_ (by simpa using hne)
  intro piece hp
  simp only [List.mem_map] at hp
  obtain ⟨x, hx, rfl⟩ := hp
  intro hc
  exact h x hx ',' hc rfl

theorem skipWs_cons_of_not_ws (c : Char) (t : List Char) (h : isJsonWs c = false) :
    skipWs (c :: t) = c :: t := by
  unfold skipWs
  rw [h]
  simp

theorem parseJsonObjectItems_shape (fuel : Nat) (cs : List Char)
    (acc : List (String × JsonValue)) (v : JsonValue) (r : List Char)
    (h : parseJsonObjectItems fuel cs acc = some (v, r)) :
    ∃ fields, v = JsonValue.obj fields := by
  induction fuel generalizing cs acc v r with
  | zero => simp [parseJsonObjectItems] at h
  | succ fuel ih =>
    unfold parseJsonObjectItems at h
    repeat' (first | split at h | simp only [] at h)
    all_goals first
      | exact ih _ _ _ _ h
      | (simp only [Option.some.injEq, Prod.mk.injEq] at h; exact ⟨_, h.1.symm⟩)
      | simp at h

theorem parseJsonNumber_shape (cs : List Char) (v : JsonValue) (r : List Char)
    (h : parseJsonNumber cs = some (v, r)) : ∃ n, v = JsonValue.num n := by
  unfold parseJsonNumber at h
  repeat' (first | split at h | simp only [] at h)
  all_goals first
    | (simp only [Option.some.injEq, Prod.mk.injEq] at h; exact ⟨_, h.1.symm⟩)
    | simp at h

theorem parseJsonValue_not_arr (fuel : Nat) (cs : List Char) (c : Char) (t : List Char)
    (hskip : skipWs cs = c :: t) (hc : c ≠ '[') (xs : List JsonValue) (r : List Char) :
    parseJsonValue fuel cs ≠ some (JsonValue.arr xs, r) := by
  intro h
  cases fuel with
  | zero => simp [parseJsonValue] at h
  | succ fuel =>
    unfold parseJsonValue at h
    try simp only [] at h
    rw [hskip] at h
    try simp only [] at h
    rw [if_neg hc] at h
    split at h
    · -- '{' branch
      split at h
      · simp at h
      · obtain ⟨fields, hf⟩ := parseJsonObjectItems_shape _ _ _ _ _ h
        simp at hf
    · split at h
      · -- '"' branch
        split at h
        · simp at h
        · simp at h
      · split at h
        · -- 't'
          split at h
          · simp at h
          · simp at h
        · split at h
          · -- 'f'
            split at h
            · simp at h
            · simp at h
          · split at h
            · -- 'n'
              split at h
              · simp at h
              · simp at h
            · split at h
              · -- number
                obtain ⟨n, hn⟩ := parseJsonNumber_shape _ _ _ h
                simp at hn
              · simp at h

theorem jsonParse_not_arr (s : String) (c : Char) (t : List Char)
    (hd : s.data = c :: t) (hws : isJsonWs c = false) (hc : c ≠ '[') (xs : List JsonValue) :
    jsonParse s ≠ some (JsonValue.arr xs) := by
  intro h
  unfold jsonParse at h
  split at h
  · rename_i v rest heq
    split at h
    · have hv : v = JsonValue.arr xs := by simpa using h
      subst hv
      exact parseJsonValue_not_arr _ s.data c t
        (by rw [hd]; exact skipWs_cons_of_not_ws c t hws) hc xs rest heq
    · simp at h
  · simp at h

theorem parse_joinComma_plain (l : List String) (h : ∀ x ∈ l, plainId x = true) :
    parseCommaSeparatedIds (JsonValue.str (joinComma l)) = l.map JsonValue.str := by
  cases l with
  | nil => rfl
  | cons x rest =>
    obtain ⟨hne0, htrim, hnc, hws, hbr⟩ := plainId_components x (h x (by simp))
    obtain ⟨c, t, hxd⟩ : ∃ c t, x.data = c :: t := by
      cases hxd : x.data with
      | nil => exact absurd hxd hne0
      | cons c t => exact ⟨c, t, rfl⟩
    have hhead : x.data.headD ' ' = c := by rw [hxd]; rfl
    rw [hhead] at hws hbr
    obtain ⟨tt, hjd⟩ : ∃ tt, (joinComma (x :: rest)).data = c :: tt := by
      cases rest with
      | nil => exact ⟨t, hxd⟩
      | cons y rr =>
        refine ⟨t ++ [','] ++ (joinComma (y :: rr)).data, ?_⟩
        show (x ++ "," ++ joinComma (y :: rr)).data = _
        rw [string_data_append, string_data_append, hxd]
        simp
    have hjne : joinComma (x :: rest) ≠ "" := by
      intro hq
      rw [string_eq_empty_iff] at hq
      rw [hq] at hjd
      cases hjd
    have hsp : ((((joinComma (x :: rest)).data.splitOn ',').map
          (fun part => jsTrim (String.mk part))).filter
          (fun id => id ≠ "")).map JsonValue.str = (x :: rest).map JsonValue.str := by
      rw [splitOn_joinComma (x :: rest) (by simp)
        (fun a ha c2 hc2 => (plainId_components a (h a ha)).2.2.1 c2 hc2)]
      rw [List.map_map]
      have hmapid : (x :: rest).map ((fun part => jsTrim (String.mk part)) ∘ String.data) =
          x :: rest := by
        have : ∀ a ∈ x :: rest,
            ((fun part => jsTrim (String.mk part)) ∘ String.data) a = a := by
          intro a ha
          show jsTrim (String.mk a.data) = a
          rw [string_mk_data]
          exact (plainId_components a (h a ha)).2.1
        calc (x :: rest).map ((fun part => jsTrim (String.mk part)) ∘ String.data)
            = (x :: rest).map id := List.map_congr_left this
          _ = x :: rest := List.map_id _
      rw [hmapid]
      have hfil : (x :: rest).filter (fun id => id ≠ "") = x :: rest := by
        rw [List.filter_eq_self]
        intro a ha
        have := (plainId_components a (h a ha)).1
        simp [string_eq_empty_iff]
        exact this
      rw [hfil]
    unfold parseCommaSeparatedIds
    try simp only []
    rw [if_neg hjne]
    cases hjp : jsonParse (joinComma (x :: rest)) with
    | none => exact hsp
    | some v =>
      cases v with
      | arr xs => exact absurd hjp (jsonParse_not_arr _ c tt hjd hws hbr xs)
      | undef => exact hsp
      | null => exact hsp
      | bool b => exact hsp
      | num n => exact hsp
      | str s2 => exact hsp
      | obj fields => exact hsp

theorem keepIds_map_str (l : List String) (h : ∀ x ∈ l, plainId x = true) :
    keepIds (l.map JsonValue.str) = Except.ok l := by
  induction l with
  | nil => rfl
  | cons x rest ih =>
    obtain ⟨hne0, htrim, hrest⟩ := plainId_components x (h x (by simp))
    have hxne : x ≠ "" := by
      intro hq
      exact hne0 ((string_eq_empty_iff x).mp hq)
    simp only [List.map_cons]
    unfold keepIds
    try simp only []
    rw [ih (fun a ha => h a (by simp [ha]))]
    simp only [Except.map]
    rw [if_pos ⟨hxne, by rw [htrim]; exact hxne⟩]

theorem format_map_str (l : List String) (h : ∀ x ∈ l, plainId x = true) :
    formatCommaSeparatedIds (l.map JsonValue.str) = Except.ok (joinComma l) := by
  cases l with
  | nil => rfl
  | cons x rest =>
    unfold formatCommaSeparatedIds
    rw [if_neg (by simp), keepIds_map_str _ h]
    rfl

theorem jsFindIndex_lt_length (l : List JsonValue) (s : String) (i : Nat)
    (h : jsFindIndex l s = some i) : i < l.length := by
  induction l generalizing i with
  | nil => simp [jsFindIndex] at h
  | cons v rest ih =>
    unfold jsFindIndex at h
    split at h
    · cases h
      simp
    · cases hrec : jsFindIndex rest s with
      | none => rw [hrec] at h; simp at h
      | some j =>
        rw [hrec] at h
        simp only [Option.map_some', Option.some.injEq] at h
        have := ih j hrec
        simp only [List.length_cons]
        omega

theorem eraseIdx_map_str (l : List String) (i : Nat) :
    (l.map JsonValue.str).eraseIdx i = (l.eraseIdx i).map JsonValue.str := by
  induction l generalizing i with
  | nil => simp
  | cons x rest ih =>
    cases i with
    | zero => simp
    | succ j => simp [List.eraseIdx_cons_succ, ih]

theorem applyCorrOp_sync_wf (st : CorrState) (cId b a : JsonValue) (f putOk : Bool)
    (hwf : wfCorrState st) (hb : plainId (jsToString b) = true)
    (ha : plainId (jsToString a) = true) :
    wfCorrState (applyCorrOp st (CorrOp.sync cId b a f putOk)) := by
  obtain ⟨lb, la, hlen, hlb, hla, hsb, hsa⟩ := hwf
  simp only [applyCorrOp]
  cases hupd : updateContactAppointmentIds cId b a f st with
  | none => exact ⟨lb, la, hlen, hlb, hla, hsb, hsa⟩
  | some st2 =>
    cases putOk with
    | false => exact ⟨lb, la, hlen, hlb, hla, hsb, hsa⟩
    | true =>
      simp only [if_true]
      unfold updateContactAppointmentIds at hupd
      split at hupd
      · simp at hupd
      · split at hupd
        · simp at hupd
        · simp only [] at hupd
          rw [hsb, hsa] at hupd
          rw [parse_joinComma_plain lb hlb, parse_joinComma_plain la hla] at hupd
          cases hidx : jsFindIndex (lb.map JsonValue.str) (jsToString b) with
          | some i => rw [hidx] at hupd; simp at hupd
          | none =>
            rw [hidx] at hupd
            have hmb : lb.map JsonValue.str ++ [JsonValue.str (jsToString b)] =
                (lb ++ [jsToString b]).map JsonValue.str := by simp
            have hma : la.map JsonValue.str ++ [JsonValue.str (jsToString a)] =
                (la ++ [jsToString a]).map JsonValue.str := by simp
            rw [hmb, hma] at hupd
            rw [format_map_str (la ++ [jsToString a]) (by
              intro z hz
              rcases List.mem_append.mp hz with hz1 | hz2
              · exact hla z hz1
              · simp at hz2; subst hz2; exact ha)] at hupd
            rw [format_map_str (lb ++ [jsToString b]) (by
              intro z hz
              rcases List.mem_append.mp hz with hz1 | hz2
              · exact hlb z hz1
              · simp at hz2; subst hz2; exact hb)] at hupd
            simp only [Option.some.injEq] at hupd
            refine ⟨lb ++ [jsToString b], la ++ [jsToString a], by simp [hlen], ?_, ?_, ?_, ?_⟩
            · intro z hz
              rcases List.mem_append.mp hz with hz1 | hz2
              · exact hlb z hz1
              · simp at hz2; subst hz2; exact hb
            · intro z hz
              rcases List.mem_append.mp hz with hz1 | hz2
              · exact hla z hz1
              · simp at hz2; subst hz2; exact ha
            · rw [← hupd]
            · rw [← hupd]

theorem applyCorrOp_del_wf (st : CorrState) (cId b a : JsonValue) (f putOk : Bool)
    (hwf : wfCorrState st) (hb : plainId (jsToString b) = true) :
    wfCorrState (applyCorrOp st (CorrOp.del cId b a f putOk)) := by
  obtain ⟨lb, la, hlen, hlb, hla, hsb, hsa⟩ := hwf
  simp only [applyCorrOp]
  cases hupd : removeContactAppointmentIds cId b a f st with
  | none => exact ⟨lb, la, hlen, hlb, hla, hsb, hsa⟩
  | some st2 =>
    cases putOk with
    | false => exact ⟨lb, la, hlen, hlb, hla, hsb, hsa⟩
    | true =>
      simp only [if_true]
      unfold removeContactAppointmentIds at hupd
      split at hupd
      · simp at hupd
      · split at hupd
        · simp at hupd
        · simp only [] at hupd
          rw [hsb, hsa, parse_joinComma_plain lb hlb, parse_joinComma_plain la hla] at hupd
          cases hidx : jsFindIndex (lb.map JsonValue.str) (jsToString b) with
          | none => rw [hidx] at hupd; simp at hupd
          | some i =>
            rw [hidx] at hupd
            simp only [] at hupd
            have hilt : i < lb.length := by
              have := jsFindIndex_lt_length _ _ _ hidx
              simpa using this
            have hcond : i < (la.map JsonValue.str).length := by
              simp only [List.length_map]
              omega
            rw [if_pos hcond] at hupd
            rw [eraseIdx_map_str lb i, eraseIdx_map_str la i] at hupd
            rw [format_map_str (la.eraseIdx i)
              (fun z hz => hla z (List.mem_of_mem_eraseIdx hz))] at hupd
            rw [format_map_str (lb.eraseIdx i)
              (fun z hz => hlb z (List.mem_of_mem_eraseIdx hz))] at hupd
            simp only [Option.some.injEq] at hupd
            refine ⟨lb.eraseIdx i, la.eraseIdx i, ?_,
              fun z hz => hlb z (List.mem_of_mem_eraseIdx hz),
              fun z hz => hla z (List.mem_of_mem_eraseIdx hz),
              by rw [← hupd], by rw [← hupd]⟩
            rw [List.length_eraseIdx_of_lt hilt, List.length_eraseIdx_of_lt (by omega)]
            omega

theorem foldl_applyCorrOp_wf (ops : List CorrOp) (st : CorrState)
    (hst : wfCorrState st) (h : ∀ op ∈ ops, corrOpPlain op = true) :
    wfCorrState (ops.foldl applyCorrOp st) := by
  induction ops generalizing st with
  | nil => exact hst
  | cons op rest ih =>
    simp only [List.foldl_cons]
    refine ih _ ?_ (fun o ho => h o (by simp [ho]))
    cases op with
    | sync c b a f p =>
      have hop := h (CorrOp.sync c b a f p) (by simp)
      simp only [corrOpPlain, Bool.and_eq_true] at hop
      exact applyCorrOp_sync_wf st c b a f p hst hop.1 hop.2
    | del c b a f p =>
      have hop := h (CorrOp.del c b a f p) (by simp)
      simp only [corrOpPlain] at hop
      exact applyCorrOp_del_wf st c b a f p hst hop

theorem wfCorrState_eq_length (st : CorrState) (hwf : wfCorrState st) :
    (parseCommaSeparatedIds (JsonValue.str st.bookingIdsStr)).length =
      (parseCommaSeparatedIds (JsonValue.str st.appointmentIdsStr)).length := by
  obtain ⟨lb, la, hlen, hlb, hla, hsb, hsa⟩ := hwf
  rw [hsb, hsa, parse_joinComma_plain lb hlb, parse_joinComma_plain la hla]
  simp [hlen]

/-- C1 counterexample: from the empty table (whose two lists trivially have
equal length), a single Appointment Sync write with the comma-carrying
booking id `"a,b"` stores field values whose parsed lists have lengths 2 and
1, so the operations do not preserve the equal-length invariant for
arbitrary ids. -/
theorem claim_C1_counterexample :
    (parseCommaSeparatedIds (JsonValue.str (CorrState.bookingIdsStr ⟨"", ""⟩))).length =
      (parseCommaSeparatedIds (JsonValue.str (CorrState.appointmentIdsStr ⟨"", ""⟩))).length ∧
    updateContactAppointmentIds (JsonValue.str "C") (JsonValue.str "a,b") (JsonValue.str "A1")
      true ⟨"", ""⟩ = some ⟨"a,b", "A1"⟩ ∧
    (parseCommaSeparatedIds (JsonValue.str "a,b")).length ≠
      (parseCommaSeparatedIds (JsonValue.str "A1")).length :=
  ⟨rfl, rfl, by decide⟩

/-- C1 (amended): restricted to plain ids — non-empty, trim-fixed,
comma-free, not starting with whitespace or `'['` — every sequence of
Appointment Sync correlation writes and delete-path removals starting from
the empty table keeps the booking-id list and the appointment-id list the
same length, whatever the outcomes of the contact fetches and PUTs. -/
theorem claim_C1_invariant (ops : List CorrOp) (h : ∀ op ∈ ops, corrOpPlain op = true) :
    (parseCommaSeparatedIds (JsonValue.str (runCorrOps ops).bookingIdsStr)).length =
      (parseCommaSeparatedIds (JsonValue.str (runCorrOps ops).appointmentIdsStr)).length :=
  wfCorrState_eq_length _
    (foldl_applyCorrOp_wf ops ⟨"", ""⟩ ⟨[], [], rfl, by simp, by simp, rfl, rfl⟩ h)

/-- Witness for C1: a create, a second create and a delete on plain ids. -/
theorem claim_C1_invariant_witness :
    (∀ op ∈ [CorrOp.sync (JsonValue.str "C") (JsonValue.str "B1") (JsonValue.str "A1") true true,
        CorrOp.sync (JsonValue.str "C") (JsonValue.str "B2") (JsonValue.str "A2") true true,
        CorrOp.del (JsonValue.str "C") (JsonValue.str "B1") JsonValue.undef true true],
      corrOpPlain op = true) ∧
    (parseCommaSeparatedIds (JsonValue.str (runCorrOps
        [CorrOp.sync (JsonValue.str "C") (JsonValue.str "B1") (JsonValue.str "A1") true true,
         CorrOp.sync (JsonValue.str "C") (JsonValue.str "B2") (JsonValue.str "A2") true true,
         CorrOp.del (JsonValue.str "C") (JsonValue.str "B1")
           JsonValue.undef true true]).bookingIdsStr)).length =
      (parseCommaSeparatedIds (JsonValue.str (runCorrOps
        [CorrOp.sync (JsonValue.str "C") (JsonValue.str "B1") (JsonValue.str "A1") true true,
         CorrOp.sync (JsonValue.str "C") (JsonValue.str "B2") (JsonValue.str "A2") true true,
         CorrOp.del (JsonValue.str "C") (JsonValue.str "B1")
           JsonValue.undef true true]).appointmentIdsStr)).length :=
  ⟨by decide, claim_C1_invariant _ (by decide)⟩
